import Mathlib

/-!
Verification development for the VocabCard-Extractor repository.

The repository is a browser-based batch tool: images are sent to a
recognition model which returns, per image, an ordered list of
`{word, box_2d}` items; each illustration is cropped client-side and the
accumulated results are exported as a spreadsheet plus a zip archive.

The repository contains several variants of the same app:
 * `src/services/processService.ts` (`processImages`) together with the
   `startProcessing` orchestrator of the app component bundled in
   `src/utils/fileExporter.ts`, and the exporters `exportToExcel` /
   `exportToZip` of `src/utils/fileExporter.ts` — called "variant A" below;
 * the single-file apps `src/unnamed/part_000` (`processAll`, with API-key
   check and no result reset), `src/unnamed/part_001` (`processAll`, with
   result reset and sanitized zip names) and `src/unnamed/part_002`
   (`processAll`, with explicit API-key check) — called p0, p1, p2 below.

Numbers that the source manipulates (normalized box coordinates, pixel
sizes, progress percentages) are embedded as rationals; binary payloads
(`Blob`) are opaque byte strings; the DOM/canvas side effects of
`cropImage` (object URLs, drawImage) are not modelled — only the computed
rectangle, the raster surface size, and the success/failure of the
decode/encode steps, the latter supplied as per-item oracle data since
they depend on the external canvas implementation.
-/

namespace VocabCard

/-- Opaque binary payload (the `Blob` produced by `canvas.toBlob`). -/
abbrev Blob := String

/-- Normalized bounding box, scale 0-1000, order [ymin, xmin, ymax, xmax].
In `processService.ts` the box is an object with these four fields; in the
`part_*` variants it is a 4-element array destructured to the same four
names. Both are embedded as this record. -/
structure BBox where
  ymin : ℚ
  xmin : ℚ
  ymax : ℚ
  xmax : ℚ
deriving DecidableEq, Repr

/-- Pixel-space crop rectangle (sx, sy, sw, sh). -/
structure PixelRect where
  sx : ℚ
  sy : ℚ
  sw : ℚ
  sh : ℚ
deriving DecidableEq, Repr

/-- The box-mapper computation inside `cropImage`
(`src/utils/fileExporter.ts`, second bundled module, lines 71-83):
`sx = (box.xmin / 1000) * width`, `sy = (box.ymin / 1000) * height`,
`sw = ((box.xmax - box.xmin) / 1000) * width`,
`sh = ((box.ymax - box.ymin) / 1000) * height`. -/
def cropRect (box : BBox) (width height : ℚ) : PixelRect :=
  { sx := box.xmin / 1000 * width
    sy := box.ymin / 1000 * height
    sw := (box.xmax - box.xmin) / 1000 * width
    sh := (box.ymax - box.ymin) / 1000 * height }

/-- Raster surface size created by the `cropImage` of
`src/utils/fileExporter.ts`: `canvas.width = sw; canvas.height = sh;`
with no clamping. -/
def cropSurface (box : BBox) (width height : ℚ) : ℚ × ℚ :=
  let r := cropRect box width height
  (r.sw, r.sh)

/-- Raster surface size created by the `cropImage` of
`src/unnamed/part_000` lines 67-68 (identically in `part_001`, `part_002`
and `src/index.tsx`): `canvas.width = Math.max(1, sw);
canvas.height = Math.max(1, sh);`. -/
def cropSurfaceClamped (box : BBox) (width height : ℚ) : ℚ × ℚ :=
  let r := cropRect box width height
  (max 1 r.sw, max 1 r.sh)

/-- Modelled from the spec: the Box Mapper contract of spec section 4.1,
`sx = xmin/1000 * W`, `sy = ymin/1000 * H`, `sw = (xmax-xmin)/1000 * W`,
`sh = (ymax-ymin)/1000 * H`. -/
def spec_boxMapper (box : BBox) (W H : ℚ) : PixelRect :=
  { sx := box.xmin / 1000 * W
    sy := box.ymin / 1000 * H
    sw := (box.xmax - box.xmin) / 1000 * W
    sh := (box.ymax - box.ymin) / 1000 * H }

/-- C1: for every normalized box and every source size W x H, the box
mapper inside `cropImage` produces exactly the pixel rectangle
sx = xmin/1000*W, sy = ymin/1000*H, sw = (xmax-xmin)/1000*W,
sh = (ymax-ymin)/1000*H demanded by the spec; in particular
box_2d = [100,100,300,300] on a 1000x1000 image yields the pixel
rectangle (100, 100, 200, 200). -/
theorem cropImage_boxMapper_spec :
    (∀ (box : BBox) (W H : ℚ), cropRect box W H = spec_boxMapper box W H) ∧
    cropRect (BBox.mk 100 100 300 300) 1000 1000 = PixelRect.mk 100 100 200 200 := by
  refine ⟨fun box W H => rfl, ?_⟩
  show PixelRect.mk (100 / 1000 * 1000) (100 / 1000 * 1000)
      ((300 - 100 : ℚ) / 1000 * 1000) ((300 - 100 : ℚ) / 1000 * 1000) = _
  norm_num

/-- C2 counterexample: the `cropImage` of `src/utils/fileExporter.ts`
assigns `canvas.width = sw` with no clamping, so a degenerate box with
`xmax = xmin` (here [0, 500, 1000, 500] on a 1000x1000 image) produces a
raster surface of width 0 — not at least 1 as the claim states. -/
theorem cropImage_surface_unclamped_cex :
    (cropSurface (BBox.mk 0 500 1000 500) 1000 1000).1 = 0 ∧
    ¬ (1 : ℚ) ≤ (cropSurface (BBox.mk 0 500 1000 500) 1000 1000).1 := by
  constructor
  · show (500 - 500 : ℚ) / 1000 * 1000 = 0
    norm_num
  · show ¬ (1 : ℚ) ≤ (500 - 500 : ℚ) / 1000 * 1000
    norm_num

/-- C2 amended: in the `cropImage` variants of `src/unnamed/part_000`,
`part_001`, `part_002` and `src/index.tsx`, the raster surface dimensions
are clamped with `Math.max(1, ·)`, so for every box and source size the
surface has width >= 1 and height >= 1. -/
theorem cropImage_surface_clamped_variant :
    ∀ (box : BBox) (width height : ℚ),
      1 ≤ (cropSurfaceClamped box width height).1 ∧
      1 ≤ (cropSurfaceClamped box width height).2 :=
  fun box width height => ⟨le_max_left 1 _, le_max_left 1 _⟩

/-!
Variant A: `processImages` (src/services/processService.ts) driven by
`startProcessing` (app component bundled in src/utils/fileExporter.ts).

The recognition call and the canvas decode/encode are external
collaborators; their outcomes are inputs of the embedding: a file's
adapter call either fails (`Except.error` with the surfaced message) or
returns the ordered item list, and each item carries the outcome of its
own `cropImage` call (`cropResult`, `none` when decode/encode failed).
-/

/-- One `{word, box_2d}` item of the adapter response, together with the
outcome of the external crop for it. -/
structure RawItem where
  word : String
  box : BBox
  cropResult : Option Blob
deriving DecidableEq, Repr

/-- Record `VocabItem` of `src/types.ts` (the display-handle `croppedImageUrl`
is not modelled; `blob` is optional as in the source). -/
structure VocabItem where
  id : ℕ
  localId : ℕ
  word : String
  originalImageIndex : ℕ
  boundingBox : BBox
  blob : Option Blob
deriving DecidableEq, Repr

/-- The object literal pushed by `processImages`
(src/services/processService.ts lines 89-98): `id: 0`,
`localId: i + 1`, the raw word, the `imageIndex` argument, the box, and
the crop payload. -/
def mkVocabA (i : ℕ) (item : RawItem) (imageIndex : ℕ) (b : Blob) : VocabItem :=
  { id := 0
    localId := i + 1
    word := item.word
    originalImageIndex := imageIndex
    boundingBox := item.box
    blob := some b }

/-- The `for (let i = 0; ...)` loop of `processImages`
(src/services/processService.ts lines 83-104): on crop success push the
item, on crop failure log and skip; `i` is the running item index. -/
def processImagesLoop (imageIndex : ℕ) : ℕ → List RawItem → List VocabItem
  | _, [] => []
  | i, item :: rest =>
    match item.cropResult with
    | some b => mkVocabA i item imageIndex b :: processImagesLoop imageIndex (i + 1) rest
    | none => processImagesLoop imageIndex (i + 1) rest

/-- Function `processImages` (src/services/processService.ts), after the adapter
returned `rawItems` for the file at index `imageIndex`. -/
def processImages (rawItems : List RawItem) (imageIndex : ℕ) : List VocabItem :=
  processImagesLoop imageIndex 0 rawItems

/-- Modelled from the spec: one file's successfully cropped items, in the
order the adapter returned them (crop failures dropped). -/
def spec_successes (items : List RawItem) (fileIdx : ℕ) : List VocabItem :=
  items.enum.filterMap fun q => q.2.cropResult.map fun b => mkVocabA q.1 q.2 fileIdx b

/-- Modelled from the spec: the concatenation, in file-queue order
starting at file index `i`, of each file's successfully cropped items. -/
def spec_orderedConcatFrom (i : ℕ) : List (Except String (List RawItem)) → List VocabItem
  | [] => []
  | f :: rest =>
    (match f with
     | .ok items => spec_successes items i
     | .error _ => []) ++ spec_orderedConcatFrom (i + 1) rest

/-- Modelled from the spec: the concatenation, in file-queue order, of
each file's successfully cropped items in adapter order. -/
def spec_orderedConcat (files : List (Except String (List RawItem))) : List VocabItem :=
  spec_orderedConcatFrom 0 files

/-- Per-file status record of `startProcessing`; `FStatus` is the
`status` union of `ProcessingStatus` in `src/types.ts`. -/
inductive FStatus where
  | pending
  | processing
  | completed
  | error
deriving DecidableEq, Repr

/-- Outcome of one `startProcessing` run: the final (renumbered) result
list, the final per-file statuses, and how many recognition calls were
made (one per file entered, `processImages` always performs the
`generateContent` call). -/
structure RunA where
  results : List VocabItem
  statuses : List FStatus
  calls : ℕ
deriving DecidableEq, Repr

/-- The file loop of `startProcessing` (app component bundled in
src/utils/fileExporter.ts, lines 126-155): each file is marked
processing, `processImages` is awaited inside a per-file try/catch —
one recognition call per file, with no check of the file's previous
status and no credential check — and on success its items are appended
to the accumulator and the file marked completed, on failure the file is
marked error and the loop continues. -/
def runA_go : ℕ → List (Except String (List RawItem)) → List VocabItem → ℕ →
    List VocabItem × List FStatus × ℕ
  | _, [], acc, calls => (acc, [], calls)
  | i, .ok items :: rest, acc, calls =>
    let r := runA_go (i + 1) rest (acc ++ processImages items i) (calls + 1)
    (r.1, .completed :: r.2.1, r.2.2)
  | i, .error _ :: rest, acc, calls =>
    let r := runA_go (i + 1) rest acc (calls + 1)
    (r.1, .error :: r.2.1, r.2.2)

/-- The final renumbering step of `startProcessing`
(src/utils/fileExporter.ts bundle, lines 157-160):
`allResults.map((item, idx) => ({ ...item, id: idx + 1 }))`. -/
def renumberIds (l : List VocabItem) : List VocabItem :=
  l.enum.map fun p => { p.2 with id := p.1 + 1 }

/-- One run of `startProcessing`. `apiKey` is the value of
`process.env.API_KEY` read inside `processImages`
(src/services/processService.ts line 22) — neither function ever
branches on it, so it is passed through unused; `initialStatuses` are
the statuses the queue had before the run — the loop overwrites them
file by file and never reads them (there is no completed-skip here,
unlike the `part_*` variants). -/
def startProcessingRun (apiKey : String) (initialStatuses : List FStatus)
    (files : List (Except String (List RawItem))) : RunA :=
  let r := runA_go 0 files [] 0
  { results := renumberIds r.1, statuses := r.2.1, calls := r.2.2 }

theorem processImagesLoop_eq_enumFrom (imageIndex : ℕ) :
    ∀ (items : List RawItem) (i : ℕ),
      processImagesLoop imageIndex i items =
        (items.enumFrom i).filterMap
          (fun q => q.2.cropResult.map fun b => mkVocabA q.1 q.2 imageIndex b)
  | [], i => rfl
  | item :: rest, i => by
    rw [List.enumFrom_cons, List.filterMap_cons]
    cases h : item.cropResult with
    | none =>
      simp only [processImagesLoop, h, Option.map_none']
      exact processImagesLoop_eq_enumFrom imageIndex rest (i + 1)
    | some b =>
      simp only [processImagesLoop, h, Option.map_some']
      rw [processImagesLoop_eq_enumFrom imageIndex rest (i + 1)]

theorem processImages_eq_spec (items : List RawItem) (fileIdx : ℕ) :
    processImages items fileIdx = spec_successes items fileIdx := by
  rw [processImages, spec_successes, List.enum, processImagesLoop_eq_enumFrom]

theorem runA_go_eq :
    ∀ (files : List (Except String (List RawItem))) (i : ℕ)
      (acc : List VocabItem) (calls : ℕ),
      runA_go i files acc calls =
        (acc ++ spec_orderedConcatFrom i files,
         files.map (fun f => match f with
           | .ok _ => FStatus.completed
           | .error _ => FStatus.error),
         calls + files.length)
  | [], i, acc, calls => by simp [runA_go, spec_orderedConcatFrom]
  | .ok items :: rest, i, acc, calls => by
    rw [runA_go, runA_go_eq rest (i + 1) (acc ++ processImages items i) (calls + 1)]
    simp only [spec_orderedConcatFrom, List.map_cons, List.length_cons, Prod.mk.injEq,
      processImages_eq_spec, List.append_assoc, true_and, and_true]
    omega
  | .error e :: rest, i, acc, calls => by
    rw [runA_go, runA_go_eq rest (i + 1) acc (calls + 1)]
    simp only [spec_orderedConcatFrom, List.map_cons, List.length_cons,
      List.nil_append, Prod.mk.injEq, true_and, and_true]
    omega

/-- C3: for every batch run (any queue, any adapter outcomes, any prior
statuses, any credential value), the accumulated result sequence of
`startProcessing` equals the concatenation, in file-queue order, of each
file's successfully cropped items in the order the adapter returned
them — no reordering across or within files; the run's final results are
exactly that concatenation with ids restamped positionally (the source's
own `id: idx + 1` renumbering step). -/
theorem startProcessing_order_preservation :
    ∀ (apiKey : String) (initialStatuses : List FStatus)
      (files : List (Except String (List RawItem))),
      (startProcessingRun apiKey initialStatuses files).results =
        renumberIds (spec_orderedConcat files) := by
  intro apiKey initialStatuses files
  rw [startProcessingRun, runA_go_eq, spec_orderedConcat]
  simp

theorem processImagesLoop_localId_lb (imageIndex : ℕ) :
    ∀ (items : List RawItem) (i : ℕ) (v : VocabItem),
      v ∈ processImagesLoop imageIndex i items → i + 1 ≤ v.localId
  | [], i, v => by intro h; simp [processImagesLoop] at h
  | item :: rest, i, v => by
    intro h
    cases hc : item.cropResult with
    | none =>
      rw [processImagesLoop, hc] at h
      exact Nat.le_of_succ_le (processImagesLoop_localId_lb imageIndex rest (i + 1) v h)
    | some b =>
      rw [processImagesLoop, hc] at h
      rcases List.mem_cons.mp h with h1 | h1
      · rw [h1]; rfl
      · exact Nat.le_of_succ_le (processImagesLoop_localId_lb imageIndex rest (i + 1) v h1)

theorem processImagesLoop_pairwise (imageIndex : ℕ) :
    ∀ (items : List RawItem) (i : ℕ),
      ((processImagesLoop imageIndex i items).map (fun v => v.localId)).Pairwise (· < ·)
  | [], i => by simp [processImagesLoop]
  | item :: rest, i => by
    cases hc : item.cropResult with
    | none =>
      rw [processImagesLoop, hc]
      exact processImagesLoop_pairwise imageIndex rest (i + 1)
    | some b =>
      rw [processImagesLoop, hc, List.map_cons, List.pairwise_cons]
      refine ⟨?_, processImagesLoop_pairwise imageIndex rest (i + 1)⟩
      intro x hx
      rcases List.mem_map.mp hx with ⟨v, hv, rfl⟩
      have := processImagesLoop_localId_lb imageIndex rest (i + 1) v hv
      show (mkVocabA i item imageIndex b).localId < v.localId
      simp only [mkVocabA]
      omega

theorem processImagesLoop_origin (imageIndex : ℕ) :
    ∀ (items : List RawItem) (i : ℕ) (v : VocabItem),
      v ∈ processImagesLoop imageIndex i items →
        v.id = 0 ∧ v.originalImageIndex = imageIndex ∧
        ∃ j, ∃ h : j < items.length,
          v.localId = i + j + 1 ∧
          v.word = (items.get ⟨j, h⟩).word ∧
          v.boundingBox = (items.get ⟨j, h⟩).box ∧
          v.blob = (items.get ⟨j, h⟩).cropResult
  | [], i, v => by intro h; simp [processImagesLoop] at h
  | item :: rest, i, v => by
    intro h
    have step : v ∈ processImagesLoop imageIndex (i + 1) rest →
        v.id = 0 ∧ v.originalImageIndex = imageIndex ∧
        ∃ j, ∃ hj : j < (item :: rest).length,
          v.localId = i + j + 1 ∧
          v.word = ((item :: rest).get ⟨j, hj⟩).word ∧
          v.boundingBox = ((item :: rest).get ⟨j, hj⟩).box ∧
          v.blob = ((item :: rest).get ⟨j, hj⟩).cropResult := by
      intro h1
      obtain ⟨h0, hidx, j, hj, hloc, hw, hb, hcr⟩ :=
        processImagesLoop_origin imageIndex rest (i + 1) v h1
      refine ⟨h0, hidx, j + 1, by simpa using Nat.succ_lt_succ hj, by omega, ?_, ?_, ?_⟩
      · simpa using hw
      · simpa using hb
      · simpa using hcr
    cases hc : item.cropResult with
    | none =>
      rw [processImagesLoop, hc] at h
      exact step h
    | some b =>
      rw [processImagesLoop, hc] at h
      rcases List.mem_cons.mp h with h1 | h1
      · subst h1
        exact ⟨rfl, rfl, 0, Nat.succ_pos _, by simp [mkVocabA], rfl, rfl, by simp [mkVocabA, hc]⟩
      · exact step h1

/-- C10: every `VocabItem` returned by `processImages` carries
`localId = 1 +` the index of its `DetectedItem` in the adapter response,
has its word, box and payload taken from that item (so localIds are
strictly increasing in result order, skipping the indices whose crop
failed), and has `originalImageIndex` equal to the `imageIndex`
argument. -/
theorem processImages_localId_invariant (items : List RawItem) (imageIndex : ℕ) :
    (∀ v ∈ processImages items imageIndex,
      v.originalImageIndex = imageIndex ∧
      ∃ j, ∃ h : j < items.length,
        v.localId = j + 1 ∧
        v.word = (items.get ⟨j, h⟩).word ∧
        v.blob = (items.get ⟨j, h⟩).cropResult) ∧
    ((processImages items imageIndex).map (fun v => v.localId)).Pairwise (· < ·) := by
  refine ⟨?_, processImagesLoop_pairwise imageIndex items 0⟩
  intro v hv
  obtain ⟨-, hidx, j, hj, hloc, hw, -, hcr⟩ :=
    processImagesLoop_origin imageIndex items 0 v hv
  exact ⟨hidx, j, hj, by omega, hw, hcr⟩

/-- Inputs used by the concrete witnesses and counterexamples below. -/
def boxW : BBox := BBox.mk 0 0 100 100

def rawItemsW : List RawItem :=
  [RawItem.mk "cat" boxW (some "b1"),
   RawItem.mk "dog" boxW none,
   RawItem.mk "fox" boxW (some "b2")]

def vocabFoxW : VocabItem := mkVocabA 2 (RawItem.mk "fox" boxW (some "b2")) 3 "b2"

/-- C10 witness: the fox item of the concrete three-item response (whose
middle crop failed) satisfies the invariant at file index 3. -/
theorem processImages_localId_invariant_witness :
    vocabFoxW.originalImageIndex = 3 ∧
    ∃ j, ∃ h : j < rawItemsW.length,
      vocabFoxW.localId = j + 1 ∧
      vocabFoxW.word = (rawItemsW.get ⟨j, h⟩).word ∧
      vocabFoxW.blob = (rawItemsW.get ⟨j, h⟩).cropResult :=
  (processImages_localId_invariant rawItemsW 3).1 vocabFoxW (by decide)

/-- C4 counterexample: in the `processService.ts` + `startProcessing`
path, a file whose recognition call succeeds with zero items is marked
completed, not error (the empty item list just skips the crop loop and
`startProcessing` then marks the file completed), and the run ends with
no results. -/
theorem emptyItems_marked_completed_cex :
    (startProcessingRun "key" [FStatus.pending] [Except.ok []]).statuses =
      [FStatus.completed] ∧
    FStatus.completed ≠ FStatus.error ∧
    (startProcessingRun "key" [FStatus.pending] [Except.ok []]).results = [] := by
  refine ⟨rfl, by decide, rfl⟩

/-- C6 counterexample: `startProcessing` never checks a file's previous
status — even when the single queued file already has status completed,
re-invoking the operation performs a recognition call for it (one call,
not zero) and rebuilds the result list. -/
theorem startProcessing_reprocess_cex :
    (startProcessingRun "key" [FStatus.completed] [Except.ok rawItemsW]).calls = 1 ∧
    ¬ (startProcessingRun "key" [FStatus.completed] [Except.ok rawItemsW]).calls = 0 := by
  refine ⟨rfl, by decide⟩

/-- C9 counterexample: the `processService.ts` path performs no
credential check — with `process.env.API_KEY` empty the batch does not
abort: the queued pending file is still processed (its recognition call
is attempted, here failing for lack of a key) and its status changes. -/
theorem startProcessing_no_key_check_cex :
    (startProcessingRun "" [FStatus.pending]
      [Except.error "API key not valid"]).calls = 1 ∧
    (startProcessingRun "" [FStatus.pending]
      [Except.error "API key not valid"]).statuses = [FStatus.error] ∧
    FStatus.error ≠ FStatus.pending := by
  refine ⟨rfl, rfl, by decide⟩

/-- The sequence of progress values reported for one successfully
recognized file of `N` items in the `processService.ts` +
`startProcessing` path: `onProgress(20)` after the file is read,
`onProgress(50)` after the adapter responds,
`onProgress(50 + ((i + 1) / N) * 50)` after each item
(src/services/processService.ts lines 25, 77, 102), and progress 100
when `startProcessing` marks the file completed. -/
def fileProgressTraceA (N : ℕ) : List ℚ :=
  20 :: 50 :: ((List.range N).map (fun i => 50 + ((i + 1 : ℚ) / N) * 50) ++ [100])

/-- C5 counterexample: for a file with 2 detected items the
`processService.ts` path reports progress 20, 50, 75, 100, 100 — it
never sets progress 5 when the file starts processing, and after the
first item it sets 75, not the 10 + (1/2)*90 = 55 the claim requires. -/
theorem progress_trace_processService_cex :
    fileProgressTraceA 2 = [20, 50, 75, 100, 100] ∧
    (5 : ℚ) ∉ fileProgressTraceA 2 ∧
    (10 : ℚ) + ((0 + 1 : ℚ) / 2) * 90 = 55 ∧
    (55 : ℚ) ∉ fileProgressTraceA 2 := by
  have hr : List.range 2 = [0, 1] := rfl
  have h : fileProgressTraceA 2 = [20, 50, 75, 100, 100] := by
    rw [fileProgressTraceA, hr]
    norm_num
  refine ⟨h, ?_, by norm_num, ?_⟩ <;> rw [h] <;> norm_num [List.mem_cons]

/-!
String utilities shared by the variants.
-/

/-- JS `String.prototype.trim`, modelled over the character list:
leading and trailing whitespace removed. -/
def jsTrim (s : String) : String :=
  String.mk (((s.data.dropWhile Char.isWhitespace).reverse.dropWhile Char.isWhitespace).reverse)

/-!
The `part_*` orchestrators.

`FileState` is one entry of the per-file status array (`FileStatus` in
the sources); `QFile` is one queued file together with the outcome its
recognition call would have (the adapter is an external collaborator, so
its outcome — transport/parse failure or the ordered item list — is an
input of the embedding, as is each item's crop outcome).
-/

/-- Status, progress and error message of one queued file. -/
structure FileState where
  status : FStatus
  progress : ℚ
  errMsg : Option String
deriving DecidableEq, Repr

/-- One queued file: its name, the state it has when the run starts, and
the outcome of its recognition call. -/
structure QFile where
  name : String
  init : FileState
  adapter : Except String (List RawItem)
deriving Repr

/-- Record `VocabItem` of `src/unnamed/part_000`: `{id, word, fileName,
croppedImageUrl?, blob?}` (the display handle is not modelled). -/
structure VocabItem0 where
  id : ℕ
  word : String
  fileName : String
  blob : Option Blob
deriving DecidableEq, Repr

/-- The crop loop of part_000 `processAll` (lines 197-208): each
successful crop appends one result numbered `prev.length + 1` — `base`
is the length of the global result list before the append — with the
trimmed word; crop failures are logged and skipped. -/
def appendLoop_p0 (fname : String) : ℕ → List RawItem → List VocabItem0
  | _, [] => []
  | base, item :: rest =>
    match item.cropResult with
    | some b =>
        VocabItem0.mk (base + 1) (jsTrim item.word) fname (some b) ::
          appendLoop_p0 fname (base + 1) rest
    | none => appendLoop_p0 fname base rest

/-- Outcome of one part_000 `processAll` run. -/
structure Run0 where
  globalError : Option String
  statuses : List FileState
  results : List VocabItem0
  calls : ℕ
deriving DecidableEq, Repr

/-- part_000 line 196: message thrown when recognition succeeds with
zero items. -/
def emptyMsg_p0 : String := "未识别到有效内容"

/-- The file loop of part_000 `processAll` (lines 152-231): completed
files are skipped untouched; otherwise the file is marked processing at
progress 5 and its recognition call made (counted); a failed call or an
empty item list marks the file error (progress stays 5), a non-empty
list runs the crop loop, appends the successes to the global results and
marks the file completed at 100; the loop then continues with the
remaining files. -/
def processAll_p0_go : List QFile → List VocabItem0 → ℕ →
    List FileState × List VocabItem0 × ℕ
  | [], res, calls => ([], res, calls)
  | q :: rest, res, calls =>
    if q.init.status = FStatus.completed then
      let r := processAll_p0_go rest res calls
      (q.init :: r.1, r.2.1, r.2.2)
    else
      match q.adapter with
      | .error e =>
        let r := processAll_p0_go rest res (calls + 1)
        (FileState.mk FStatus.error 5 (some e) :: r.1, r.2.1, r.2.2)
      | .ok items =>
        if items.isEmpty then
          let r := processAll_p0_go rest res (calls + 1)
          (FileState.mk FStatus.error 5 (some emptyMsg_p0) :: r.1, r.2.1, r.2.2)
        else
          let r := processAll_p0_go rest
            (res ++ appendLoop_p0 q.name res.length items) (calls + 1)
          (FileState.mk FStatus.completed 100 none :: r.1, r.2.1, r.2.2)

/-- part_000 line 137: global error reported when no credential is
found (browser path without the aistudio key selector). -/
def keyMissingMsg_p0 : String := "未检测到 API 密钥。"

/-- part_000 `processAll` (lines 126-239): the credential is checked
once before the loop — when absent a single global error is reported and
the function returns before touching any file; when present the queue is
walked sequentially. Unlike the other variants the previous result list
is kept (there is no `setResults([])`). -/
def processAll_p0 (apiKey : String) (queue : List QFile) (prev : List VocabItem0) : Run0 :=
  if apiKey = "" then
    Run0.mk (some keyMissingMsg_p0) (queue.map QFile.init) prev 0
  else
    let r := processAll_p0_go queue prev 0
    Run0.mk none r.1 r.2.1 r.2.2

theorem processAll_p0_go_all_completed :
    ∀ (queue : List QFile) (res : List VocabItem0) (calls : ℕ),
      (∀ q ∈ queue, q.init.status = FStatus.completed) →
      processAll_p0_go queue res calls = (queue.map QFile.init, res, calls)
  | [], res, calls => by intro h; rfl
  | q :: rest, res, calls => by
    intro h
    have hq : q.init.status = FStatus.completed := h q (List.mem_cons_self q rest)
    have hrest := processAll_p0_go_all_completed rest res calls
      (fun x hx => h x (List.mem_cons_of_mem q hx))
    rw [processAll_p0_go, if_pos hq, hrest]
    rfl

/-- C6 amended: in the part_000 `processAll` orchestrator, re-invoking
the process-all operation on a batch in which every queued file already
has status completed performs no recognition calls, leaves the
accumulated result sequence unchanged and leaves every file's state
untouched. (The `startProcessing` variant of src/utils/fileExporter.ts
has no such skip: see the counterexample.) -/
theorem processAll_p0_idempotent (apiKey : String) (queue : List QFile)
    (prev : List VocabItem0)
    (h : ∀ q ∈ queue, q.init.status = FStatus.completed) :
    (processAll_p0 apiKey queue prev).calls = 0 ∧
    (processAll_p0 apiKey queue prev).results = prev ∧
    (processAll_p0 apiKey queue prev).statuses = queue.map QFile.init := by
  by_cases hk : apiKey = ""
  · rw [processAll_p0, if_pos hk]
    exact ⟨rfl, rfl, rfl⟩
  · rw [processAll_p0, if_neg hk, processAll_p0_go_all_completed queue prev 0 h]
    exact ⟨rfl, rfl, rfl⟩

/-- A queue of one already-completed file, used as concrete input. -/
def qCompletedW : QFile :=
  QFile.mk "done.png" (FileState.mk FStatus.completed 100 none) (Except.ok rawItemsW)

/-- C6 witness: on the one-file all-completed queue (with a non-empty
previous result list) the run makes 0 calls and changes nothing. -/
theorem processAll_p0_idempotent_witness :
    (processAll_p0 "key" [qCompletedW] [VocabItem0.mk 1 "cat" "done.png" (some "b1")]).calls = 0 ∧
    (processAll_p0 "key" [qCompletedW] [VocabItem0.mk 1 "cat" "done.png" (some "b1")]).results =
      [VocabItem0.mk 1 "cat" "done.png" (some "b1")] ∧
    (processAll_p0 "key" [qCompletedW] [VocabItem0.mk 1 "cat" "done.png" (some "b1")]).statuses =
      [qCompletedW].map QFile.init :=
  processAll_p0_idempotent "key" [qCompletedW] [VocabItem0.mk 1 "cat" "done.png" (some "b1")]
    (by decide)

/-- Progress value part_000 assigns after the (j+1)-th of N items
(line 206): `10 + ((j + 1) / N) * 90`. -/
def itemProgress_p0 (N j : ℕ) : ℚ := 10 + ((j + 1 : ℚ) / N) * 90

/-- The sequence of progress values part_000 `processAll` assigns to one
file (lines 156, 206, 211): nothing for a skipped file; 5 at processing
and nothing more when the call fails or returns no items; otherwise 5,
then `10 + ((j+1)/N) * 90` after each of the N items, then 100 at the
completed transition. -/
def fileProgressTrace_p0 (q : QFile) : List ℚ :=
  if q.init.status = FStatus.completed then []
  else
    match q.adapter with
    | .error _ => [5]
    | .ok items =>
      if items.isEmpty then [5]
      else 5 :: ((List.range items.length).map (itemProgress_p0 items.length) ++ [100])

/-- C5 amended: in the part_000 `processAll` orchestrator, a file that
is not skipped and whose call returns N ≥ 1 items gets progress 5 when
marked processing, then `10 + (j+1)/N * 90` after the (j+1)-th item, and
100 at the completed transition; the sequence is monotonically
non-decreasing, and it already reaches 100 at the last item update
(j + 1 = N), not only via the completed transition. (The
`processService.ts` path reports 20 / 50 / 50 + (i+1)/N * 50 instead and
never sets 5: see the counterexample.) -/
theorem processAll_p0_progress (q : QFile) (items : List RawItem)
    (h1 : ¬ q.init.status = FStatus.completed) (h2 : q.adapter = Except.ok items)
    (h3 : items ≠ []) :
    fileProgressTrace_p0 q =
      5 :: ((List.range items.length).map (itemProgress_p0 items.length) ++ [100]) ∧
    (fileProgressTrace_p0 q).Sorted (· ≤ ·) ∧
    itemProgress_p0 items.length (items.length - 1) = 100 := by
  have hN : 0 < items.length := List.length_pos.mpr h3
  have hNQ : (0 : ℚ) < (items.length : ℚ) := by exact_mod_cast hN
  have hempty : items.isEmpty = false := by
    cases items with
    | nil => exact absurd rfl h3
    | cons a l => rfl
  have heq : fileProgressTrace_p0 q =
      5 :: ((List.range items.length).map (itemProgress_p0 items.length) ++ [100]) := by
    rw [fileProgressTrace_p0, if_neg h1, h2]
    simp [hempty]
  have hge : ∀ j : ℕ, (5 : ℚ) ≤ itemProgress_p0 items.length j := by
    intro j
    rw [itemProgress_p0]
    have hnn : (0 : ℚ) ≤ ((j : ℚ) + 1) / (items.length : ℚ) := by positivity
    nlinarith
  have hle : ∀ j : ℕ, j < items.length → itemProgress_p0 items.length j ≤ 100 := by
    intro j hj
    rw [itemProgress_p0]
    have hdiv : ((j : ℚ) + 1) / (items.length : ℚ) ≤ 1 := by
      rw [div_le_one hNQ]
      exact_mod_cast hj
    nlinarith
  have hmono : ∀ a b : ℕ, a < b →
      itemProgress_p0 items.length a ≤ itemProgress_p0 items.length b := by
    intro a b hab
    rw [itemProgress_p0, itemProgress_p0]
    have hc : ((a : ℚ) + 1) ≤ ((b : ℚ) + 1) := by exact_mod_cast Nat.succ_le_succ hab.le
    have hdiv : ((a : ℚ) + 1) / (items.length : ℚ) ≤ ((b : ℚ) + 1) / (items.length : ℚ) := by
      gcongr
    nlinarith
  refine ⟨heq, ?_, ?_⟩
  · rw [heq, List.sorted_cons]
    constructor
    · intro x hx
      rcases List.mem_append.mp hx with hx | hx
      · rcases List.mem_map.mp hx with ⟨j, hj, rfl⟩
        exact hge j
      · rw [List.mem_singleton.mp hx]
        norm_num
    · show ((List.range items.length).map (itemProgress_p0 items.length) ++ [100]).Pairwise (· ≤ ·)
      refine List.pairwise_append.mpr ⟨?_, ?_, ?_⟩
      · refine List.pairwise_map.mpr ?_
        exact (List.pairwise_lt_range items.length).imp (fun hab => hmono _ _ hab)
      · exact List.pairwise_singleton _ _
      · intro x hx y hy
        rcases List.mem_map.mp hx with ⟨j, hj, rfl⟩
        rw [List.mem_singleton.mp hy]
        exact hle j (List.mem_range.mp hj)
  · obtain ⟨m, hm⟩ : ∃ m, items.length = m + 1 :=
      ⟨items.length - 1, (Nat.succ_pred_eq_of_pos hN).symm⟩
    rw [itemProgress_p0, hm, Nat.succ_sub_one]
    have hm1 : ((m : ℚ) + 1) ≠ 0 := by positivity
    push_cast
    rw [div_self hm1]
    norm_num

/-- A pending two-item file, used as concrete input. -/
def qPendingW : QFile :=
  QFile.mk "sheet.png" (FileState.mk FStatus.pending 0 none)
    (Except.ok [RawItem.mk "sun" boxW (some "s1"), RawItem.mk "moon" boxW (some "s2")])

/-- C5 witness: the progress trace of a pending two-item file. -/
theorem processAll_p0_progress_witness :
    fileProgressTrace_p0 qPendingW =
      5 :: ((List.range 2).map (itemProgress_p0 2) ++ [100]) ∧
    (fileProgressTrace_p0 qPendingW).Sorted (· ≤ ·) ∧
    itemProgress_p0 2 (2 - 1) = 100 :=
  processAll_p0_progress qPendingW
    [RawItem.mk "sun" boxW (some "s1"), RawItem.mk "moon" boxW (some "s2")]
    (by decide) rfl (List.cons_ne_nil _ _)

/-- Record `VocabItem` of `src/unnamed/part_001` and `part_002`: `{word,
fileName, croppedImageUrl?, blob?}` — no id field (the Excel export
numbers rows positionally). -/
structure VocabItem1 where
  word : String
  fileName : String
  blob : Option Blob
deriving DecidableEq, Repr

/-- part_001 line 157: message thrown when recognition succeeds with
zero items. -/
def emptyMsg_p1 : String := "未在此图片中检测到卡片内容"

/-- Final state of one file under part_001 `processAll` (lines
115-196): a completed file is skipped untouched; a failed call marks it
error at progress 5 with the surfaced message (the source rewrites
key-related messages, not modelled); an empty item list marks it error
with the empty-content message; otherwise it ends completed at 100. -/
def fileState_p1 (q : QFile) : FileState :=
  if q.init.status = FStatus.completed then q.init
  else
    match q.adapter with
    | .error e => FileState.mk FStatus.error 5 (some e)
    | .ok items =>
      if items.isEmpty then FileState.mk FStatus.error 5 (some emptyMsg_p1)
      else FileState.mk FStatus.completed 100 none

/-- The results one file contributes under part_001 `processAll`
(crop loop, lines 166-180): nothing when skipped, failed or empty;
otherwise one trimmed-word result per successful crop, in adapter
order. -/
def fileResults_p1 (q : QFile) : List VocabItem1 :=
  if q.init.status = FStatus.completed then []
  else
    match q.adapter with
    | .error _ => []
    | .ok items =>
      if items.isEmpty then []
      else items.filterMap fun it =>
        it.cropResult.map fun b => VocabItem1.mk (jsTrim it.word) q.name (some b)

/-- The file loop of part_001 `processAll` (lines 115-199), threading
the global result list: completed files skipped; otherwise processing at
5, the call made, zero items throw the empty-content error, each
successful crop appends one result, and the file ends completed at 100
or in error; the loop continues with the remaining files either way. -/
def processAll_p1_go : List QFile → List VocabItem1 → List FileState × List VocabItem1
  | [], res => ([], res)
  | q :: rest, res =>
    if q.init.status = FStatus.completed then
      let r := processAll_p1_go rest res
      (q.init :: r.1, r.2)
    else
      match q.adapter with
      | .error e =>
        let r := processAll_p1_go rest res
        (FileState.mk FStatus.error 5 (some e) :: r.1, r.2)
      | .ok items =>
        if items.isEmpty then
          let r := processAll_p1_go rest res
          (FileState.mk FStatus.error 5 (some emptyMsg_p1) :: r.1, r.2)
        else
          let r := processAll_p1_go rest
            (res ++ items.filterMap fun it =>
              it.cropResult.map fun b => VocabItem1.mk (jsTrim it.word) q.name (some b))
          (FileState.mk FStatus.completed 100 none :: r.1, r.2)

/-- Outcome of one part_001 `processAll` run. -/
structure Run1 where
  statuses : List FileState
  results : List VocabItem1
deriving DecidableEq, Repr

/-- part_001 `processAll` (lines 100-199): the result list is reset
before the loop. -/
def processAll_p1 (queue : List QFile) : Run1 :=
  let r := processAll_p1_go queue []
  Run1.mk r.1 r.2

/-- part_001 `exportExcel` (lines 202-213): one row per result, numbered
positionally from 1, with the stored (already trimmed) word. -/
def exportExcel_p1 (results : List VocabItem1) : List (ℕ × String) :=
  results.enum.map fun p => (p.1 + 1, p.2.word)

theorem processAll_p1_go_eq :
    ∀ (queue : List QFile) (res : List VocabItem1),
      processAll_p1_go queue res =
        (queue.map fileState_p1, res ++ queue.flatMap fileResults_p1)
  | [], res => by simp [processAll_p1_go]
  | q :: rest, res => by
    by_cases hq : q.init.status = FStatus.completed
    · rw [processAll_p1_go, if_pos hq, processAll_p1_go_eq rest res]
      simp [fileState_p1, fileResults_p1, hq]
    · cases ha : q.adapter with
      | error e =>
        rw [processAll_p1_go, if_neg hq, ha, processAll_p1_go_eq rest res]
        simp [fileState_p1, fileResults_p1, hq, ha]
      | ok items =>
        by_cases he : items.isEmpty
        · rw [processAll_p1_go, if_neg hq, ha]
          simp only [he, if_true, processAll_p1_go_eq rest res]
          simp [fileState_p1, fileResults_p1, hq, ha, he]
        · rw [processAll_p1_go, if_neg hq, ha]
          simp only [he, if_false, processAll_p1_go_eq rest _]
          simp [fileState_p1, fileResults_p1, hq, ha, he, List.append_assoc]

/-- File A of the two-file scenario: three items, all crops succeed. -/
def qA_W : QFile :=
  QFile.mk "A.png" (FileState.mk FStatus.pending 0 none)
    (Except.ok [RawItem.mk "cat" boxW (some "a1"),
                RawItem.mk "dog" boxW (some "a2"),
                RawItem.mk "fox" boxW (some "a3")])

/-- File B of the two-file scenario: the call succeeds with zero
items. -/
def qB_W : QFile :=
  QFile.mk "B.png" (FileState.mk FStatus.pending 0 none) (Except.ok [])

/-- C4 amended: in the part_001 `processAll` orchestrator a file whose
recognition call succeeds with zero items is marked error with the
empty-content message and contributes no results, and the run still
processes every other file (statuses are the per-file outcomes in queue
order, results the concatenation of the per-file contributions); in the
two-file scenario file A (3 items) ends completed at progress 100 with 3
accumulated results and 3 spreadsheet rows, file B (0 items) ends in
error. (The `processService.ts` + `startProcessing` path instead marks a
zero-item file completed: see the counterexample.) -/
theorem processAll_p1_empty_error :
    (∀ queue : List QFile,
      (processAll_p1 queue).statuses = queue.map fileState_p1 ∧
      (processAll_p1 queue).results = queue.flatMap fileResults_p1) ∧
    (∀ q : QFile, ¬ q.init.status = FStatus.completed → q.adapter = Except.ok [] →
      fileState_p1 q = FileState.mk FStatus.error 5 (some emptyMsg_p1) ∧
      fileResults_p1 q = []) ∧
    (processAll_p1 [qA_W, qB_W]).statuses =
      [FileState.mk FStatus.completed 100 none,
       FileState.mk FStatus.error 5 (some emptyMsg_p1)] ∧
    (processAll_p1 [qA_W, qB_W]).results.length = 3 ∧
    (exportExcel_p1 (processAll_p1 [qA_W, qB_W]).results).length = 3 := by
  refine ⟨?_, ?_, ?_, ?_, ?_⟩
  · intro queue
    rw [processAll_p1, processAll_p1_go_eq]
    exact ⟨rfl, by simp⟩
  · intro q hq ha
    rw [fileState_p1, if_neg hq, ha, fileResults_p1, if_neg hq, ha]
    exact ⟨rfl, rfl⟩
  · rfl
  · rfl
  · rfl

/-- C4 witness: file B itself — a non-completed file whose call returned
zero items — is marked error with the empty-content message and yields
no results. -/
theorem processAll_p1_empty_error_witness :
    fileState_p1 qB_W = FileState.mk FStatus.error 5 (some emptyMsg_p1) ∧
    fileResults_p1 qB_W = [] :=
  processAll_p1_empty_error.2.1 qB_W (by decide) rfl

/-- part_002 line 180: message thrown when recognition succeeds with
zero items. -/
def emptyMsg_p2 : String := "未在此图片中检测到单词卡片"

/-- part_002 line 117: global error reported when the credential is
missing. -/
def keyMissingMsg_p2 : String :=
  "检测到 API Key 缺失。请确保在 GitHub Secrets 或平台环境变量中配置了 API_KEY。"

/-- The file loop of part_002 `processAll` (lines 128-210): same shape
as part_001 — completed files skipped, processing at 5, zero items throw
the empty-content error, successes appended, completed at 100 or error —
with the recognition calls counted. -/
def processAll_p2_go : List QFile → List VocabItem1 → ℕ →
    List FileState × List VocabItem1 × ℕ
  | [], res, calls => ([], res, calls)
  | q :: rest, res, calls =>
    if q.init.status = FStatus.completed then
      let r := processAll_p2_go rest res calls
      (q.init :: r.1, r.2.1, r.2.2)
    else
      match q.adapter with
      | .error e =>
        let r := processAll_p2_go rest res (calls + 1)
        (FileState.mk FStatus.error 5 (some e) :: r.1, r.2.1, r.2.2)
      | .ok items =>
        if items.isEmpty then
          let r := processAll_p2_go rest res (calls + 1)
          (FileState.mk FStatus.error 5 (some emptyMsg_p2) :: r.1, r.2.1, r.2.2)
        else
          let r := processAll_p2_go rest
            (res ++ items.filterMap fun it =>
              it.cropResult.map fun b => VocabItem1.mk (jsTrim it.word) q.name (some b))
            (calls + 1)
          (FileState.mk FStatus.completed 100 none :: r.1, r.2.1, r.2.2)

/-- Outcome of one part_002 `processAll` run. -/
structure Run2 where
  globalError : Option String
  statuses : List FileState
  results : List VocabItem1
  calls : ℕ
deriving DecidableEq, Repr

/-- part_002 `processAll` (lines 99-216): the credential is resolved
with fallbacks defaulting to "" and checked before anything else — when
it is "" or the literal "undefined", a single global error is set and
the function returns before the busy flag, the result reset and the
loop; otherwise the results are reset and the queue walked as in
part_001. -/
def processAll_p2 (apiKey : String) (queue : List QFile) (prev : List VocabItem1) : Run2 :=
  if apiKey = "" ∨ apiKey = "undefined" then
    Run2.mk (some keyMissingMsg_p2) (queue.map QFile.init) prev 0
  else
    let r := processAll_p2_go queue [] 0
    Run2.mk none r.1 r.2.1 r.2.2

/-- C9 amended: in the part_002 `processAll` orchestrator, when the API
credential is absent at batch start (resolved to "" or "undefined"), the
batch aborts before any file is processed: exactly one global error is
reported, no recognition call is made, and no queued file's status,
progress or results change. (The `processService.ts` path performs no
such check and processes the queue regardless: see the
counterexample.) -/
theorem processAll_p2_missing_key_aborts (apiKey : String) (queue : List QFile)
    (prev : List VocabItem1) (h : apiKey = "" ∨ apiKey = "undefined") :
    (processAll_p2 apiKey queue prev).globalError = some keyMissingMsg_p2 ∧
    (processAll_p2 apiKey queue prev).calls = 0 ∧
    (processAll_p2 apiKey queue prev).statuses = queue.map QFile.init ∧
    (processAll_p2 apiKey queue prev).results = prev := by
  rw [processAll_p2, if_pos h]
  exact ⟨rfl, rfl, rfl, rfl⟩

/-- C9 witness: with an empty credential and one pending queued file,
the run reports the global error, makes no call and leaves the file
untouched. -/
theorem processAll_p2_missing_key_aborts_witness :
    (processAll_p2 "" [qPendingW] []).globalError = some keyMissingMsg_p2 ∧
    (processAll_p2 "" [qPendingW] []).calls = 0 ∧
    (processAll_p2 "" [qPendingW] []).statuses = [qPendingW].map QFile.init ∧
    (processAll_p2 "" [qPendingW] []).results = [] :=
  processAll_p2_missing_key_aborts "" [qPendingW] [] (Or.inl rfl)

/-!
Exporters (src/utils/fileExporter.ts and part_001).
-/

/-- Function `formatWordForExport` (src/utils/fileExporter.ts lines 5-7):
JS `word.replace(/_/g, ' ').trim()` — every underscore replaced by a
space, then trimmed. -/
def formatWordForExport (word : String) : String :=
  jsTrim (String.mk (word.data.map fun c => if c = '_' then ' ' else c))

/-- Function `exportToExcel` (src/utils/fileExporter.ts lines 9-20): one
spreadsheet row per result, columns index = `item.id` and word =
formatted word. -/
def exportToExcel (items : List VocabItem) : List (ℕ × String) :=
  items.map fun item => (item.id, formatWordForExport item.word)

/-- Function `exportToZip` (src/utils/fileExporter.ts lines 22-47): one archive
entry per result that has a payload, named formatted word + ".jpg" —
the same `formatWordForExport` as the spreadsheet, with no path-unsafe
sanitization in this variant. -/
def exportToZip (items : List VocabItem) : List (String × Blob) :=
  items.filterMap fun item =>
    item.blob.map fun b => (formatWordForExport item.word ++ ".jpg", b)

/-- C7: for every result with a payload, the same normalization
(underscores to spaces, then trim) is applied to its word in the
spreadsheet row and in the archive entry name, so the archive holds an
entry whose base name is exactly the word text of that result's
spreadsheet row. -/
theorem export_name_consistency (items : List VocabItem) (item : VocabItem)
    (h : item ∈ items) (b : Blob) (hb : item.blob = some b) :
    (item.id, formatWordForExport item.word) ∈ exportToExcel items ∧
    (formatWordForExport item.word ++ ".jpg", b) ∈ exportToZip items := by
  constructor
  · exact List.mem_map_of_mem _ h
  · exact List.mem_filterMap.mpr ⟨item, h, by rw [hb]; rfl⟩

/-- A result whose word carries an underscore and stray spaces. -/
def itemRedFoxW : VocabItem :=
  VocabItem.mk 1 1 " Red_Fox " 0 boxW (some "rf")

/-- C7 witness: the "Red Fox" result exports as spreadsheet word
"Red Fox" and archive entry "Red Fox.jpg". -/
theorem export_name_consistency_witness :
    (itemRedFoxW.id, formatWordForExport itemRedFoxW.word) ∈ exportToExcel [itemRedFoxW] ∧
    (formatWordForExport itemRedFoxW.word ++ ".jpg", ("rf" : Blob)) ∈ exportToZip [itemRedFoxW] :=
  export_name_consistency [itemRedFoxW] itemRedFoxW (List.mem_singleton.mpr rfl) "rf" rfl

/-- A result whose word contains a path separator. -/
def itemSlashW : VocabItem :=
  VocabItem.mk 1 1 "a/b" 0 boxW (some "ab")

/-- C8 counterexample: the `exportToZip` of src/utils/fileExporter.ts
does not strip path-unsafe characters — the word "a/b" produces the
archive entry name "a/b.jpg", not the "a_b.jpg" the claim states. -/
theorem exportToZip_unsanitized_cex :
    (exportToZip [itemSlashW]).map Prod.fst = ["a/b.jpg"] ∧
    ("a/b.jpg" : String) ≠ "a_b.jpg" := by
  refine ⟨by decide, by decide⟩

/-- The path-unsafe character class of part_001 `exportZip` (line 222):
`[\\/:*?"<>|]`. -/
def isPathUnsafe (c : Char) : Bool :=
  c = '\\' || c = '/' || c = ':' || c = '*' || c = '?' || c = '"' ||
    c = '<' || c = '>' || c = '|'

/-- The `safeName` computation of part_001 `exportZip` (line 222): every
path-unsafe character of the word replaced by an underscore. -/
def sanitizeWord_p1 (w : String) : String :=
  String.mk (w.data.map fun c => if isPathUnsafe c then '_' else c)

/-- part_001 `exportZip` (lines 215-232): one archive entry per result
with a payload, named sanitized word + ".jpg". -/
def exportZip_p1 (results : List VocabItem1) : List (String × Blob) :=
  results.filterMap fun it =>
    it.blob.map fun b => (sanitizeWord_p1 it.word ++ ".jpg", b)

/-- C8 amended: in the part_001 (and part_002) `exportZip`, every result
with a payload gets an archive entry named its word with each of the
path-unsafe characters backslash / : * ? " < > | replaced by an
underscore, plus the fixed ".jpg" extension; in particular the word
"a/b" produces the entry name "a_b.jpg". (The `exportToZip` of
src/utils/fileExporter.ts applies only the underscore-to-space
normalization, without this sanitization: see the counterexample.) -/
theorem exportZip_p1_sanitizes (results : List VocabItem1) (it : VocabItem1)
    (h : it ∈ results) (b : Blob) (hb : it.blob = some b) :
    (sanitizeWord_p1 it.word ++ ".jpg", b) ∈ exportZip_p1 results ∧
    sanitizeWord_p1 "a/b" ++ ".jpg" = "a_b.jpg" := by
  constructor
  · exact List.mem_filterMap.mpr ⟨it, h, by rw [hb]; rfl⟩
  · rfl

/-- A part_001-style result with the word "a/b". -/
def item1SlashW : VocabItem1 := VocabItem1.mk "a/b" "A.png" (some "ab")

/-- C8 witness: the "a/b" result gets the archive entry "a_b.jpg". -/
theorem exportZip_p1_sanitizes_witness :
    (sanitizeWord_p1 item1SlashW.word ++ ".jpg", ("ab" : Blob)) ∈ exportZip_p1 [item1SlashW] ∧
    sanitizeWord_p1 "a/b" ++ ".jpg" = "a_b.jpg" :=
  exportZip_p1_sanitizes [item1SlashW] item1SlashW (List.mem_singleton.mpr rfl) "ab" rfl

end VocabCard
